import Mathlib

/-!
Shallow embedding of `src/lcd/ssd1306.cpp` (mt32-pi SSD1306 display driver).

Machine integers are modelled as `Nat` with explicit `% 2^w` / masking where
the C code truncates.  The framebuffer (`u8 m_Framebuffer[...]`) is a
`List Nat` of bytes; `List.set` models an array store (all stores the code
performs are proved in bounds where that matters).  The I2C transport is
modelled as a log of the byte sequences written (`LCDState.writes`).
Floating point enters only as `m_PartLevels[i] * barHeight` truncated to `u8`;
theorems quantify over the resulting pixel counts `0 ≤ pixels ≤ barHeight`,
the exact image of levels in `[0,1]`.
-/

set_option maxRecDepth 100000

namespace SSD1306

/-- Drawing constants from ssd1306.cpp. -/
def Width : Nat := 128

def BarWidth : Nat := 12

def BarSpacing : Nat := 2

def BarOffset : Nat := 2

/-- `u8 bit = 5 - nColumn; for i < 8: column |= (CharData[i] >> bit & 1) << i`
(`SingleColumn`, ssd1306.cpp lines 35-44).  `cd` is the 8-row glyph data. -/
def SingleColumn (cd : List Nat) (nColumn : Nat) : Nat :=
  (List.range 8).foldl (fun column i => column ||| ((cd.getD i 0 >>> (5 - nColumn) &&& 1) <<< i)) 0

/-- `DoubleColumn` (ssd1306.cpp lines 47-59): take the single column and
duplicate bit `i` into bits `2i` and `2i+1` of a 16-bit value. -/
def DoubleColumn (cd : List Nat) (nColumn : Nat) : Nat :=
  (List.range 8).foldl
    (fun column r => column ||| (((SingleColumn cd nColumn >>> r) &&& 1) <<< (r * 2) |||
      ((SingleColumn cd nColumn >>> r) &&& 1) <<< (r * 2 + 1))) 0

/-- `totalPages = m_nHeight / 8 - 2` (ssd1306.cpp line 232). -/
def totalPages (height : Nat) : Nat := height / 8 - 2

/-- `barHeight = m_nHeight - 8 * 2` (ssd1306.cpp line 233). -/
def barHeight (height : Nat) : Nat := height - 8 * 2

/-- The per-part `pageValues` array of `DrawPartLevels` before the peak-meter
branch (ssd1306.cpp lines 238-251): entries `j < fullPages` are written `0xFF`,
entries `fullPages ≤ j < totalPages` are written `0`, then when
`remainder ≠ 0` entry `fullPages` is overwritten with the u8 truncation of
`0xFF << (8 - remainder)`. -/
def barPageValues (nTotalPages levelPixels : Nat) : List Nat :=
  let fullPages := levelPixels / 8
  let remainder := levelPixels % 8
  let pv := (List.range nTotalPages).map (fun j => if j < fullPages then 0xFF else 0)
  if remainder ≠ 0 then pv.set fullPages ((0xFF <<< (8 - remainder)) % 256) else pv

/-- The `pageValues` array after the peak-meter branch
(ssd1306.cpp lines 253-263): when peaks are drawn and `peakLevelPixels ≠ 0`,
OR `1 << (8 - remainder)` into entry `peakPage` when `remainder ≠ 0`,
else OR `1` into entry `peakPage - 1`. -/
def barPageValuesWithPeak (nTotalPages levelPixels peakLevelPixels : Nat)
    (bDrawPeaks : Bool) : List Nat :=
  let pv := barPageValues nTotalPages levelPixels
  if bDrawPeaks ∧ peakLevelPixels ≠ 0 then
    let peakPage := peakLevelPixels / 8
    let remainder := peakLevelPixels % 8
    if remainder ≠ 0 then
      pv.set peakPage (pv.getD peakPage 0 ||| (1 <<< (8 - remainder)))
    else
      pv.set (peakPage - 1) (pv.getD (peakPage - 1) 0 ||| 1)
  else pv

/-- The `pageValues` index the peak-meter branch stores into
(ssd1306.cpp lines 259-262): `peakPage` when `peakLevelPixels % 8 ≠ 0`,
else `peakPage - 1`. -/
def peakIndex (peakLevelPixels : Nat) : Nat :=
  if peakLevelPixels % 8 ≠ 0 then peakLevelPixels / 8 else peakLevelPixels / 8 - 1

/-- Driver state: the framebuffer bytes, and the log of byte sequences written
to the I2C transport (`m_pI2CMaster->Write`). -/
structure LCDState where
  fb : List Nat
  writes : List (List Nat)
deriving DecidableEq

/-- `WriteFramebuffer` (ssd1306.cpp lines 170-174): one transport write of the
whole framebuffer, `m_nHeight * 16 + 1` bytes. -/
def WriteFramebuffer (height : Nat) (st : LCDState) : LCDState :=
  { st with writes := st.writes ++ [st.fb.take (height * 16 + 1)] }

/-- `SetPixel` (ssd1306.cpp lines 176-185): mask `nX &= 0x7F`, `nY &= 0x3F`,
then OR bit `nY & 7` into the byte at `((nY & 0xF8) << 4) + nX + 1`. -/
def SetPixel (fb : List Nat) (nX nY : Nat) : List Nat :=
  let x := nX &&& 0x7F
  let y := nY &&& 0x3F
  let offset := ((y &&& 0xF8) <<< 4) + x + 1
  fb.set offset (fb.getD offset 0 ||| (1 <<< (y &&& 7)))

/-- `ClearPixel` (ssd1306.cpp lines 187-194): same addressing as `SetPixel`,
then `&= ~(1 << (nY & 7))`; the complement of the bit mask is taken within
the byte range (`0xFF ^^^ mask`), as framebuffer bytes are `u8`. -/
def ClearPixel (fb : List Nat) (nX nY : Nat) : List Nat :=
  let x := nX &&& 0x7F
  let y := nY &&& 0x3F
  let offset := ((y &&& 0xF8) <<< 4) + x + 1
  fb.set offset (fb.getD offset 0 &&& (0xFF ^^^ (1 <<< (y &&& 7))))

/-- `DrawChar` (ssd1306.cpp lines 196-227).  `font idx i` stands for the
precomputed `FontDouble[idx][i]` table (a u16 entry; the table data lives in
`lcd/font6x8.h`, abstracted as a parameter).  `ch` is the character byte:
`'\xFF'` is remapped to `'\x80'`, and the glyph index is the u8 cast of
`chChar - ' '`, i.e. `(ch + 224) % 256`.  `fontColumn <<= 2` truncates at
16 bits. -/
def DrawChar (font : Nat → Nat → Nat) (fb : List Nat) (ch nCursorX nCursorY : Nat)
    (bInverted bDoubleWidth : Bool) : List Nat :=
  let rowOffset := nCursorY * Width * 2
  let columnOffset := nCursorX * (if bDoubleWidth then 12 else 6) + 5
  let c := if ch = 0xFF then 0x80 else ch
  (List.range 6).foldl (fun fb i =>
    let fontColumn := font ((c + 224) % 256) i
    let fontColumn := if i > 0 ∧ bInverted then fontColumn ^^^ 0x3FFF else fontColumn
    let fontColumn := (fontColumn <<< 2) % 65536
    let offset := rowOffset + columnOffset + (if bDoubleWidth then i * 2 else i)
    let fb := fb.set offset (fontColumn &&& 0xFF)
    let fb := fb.set (offset + Width) ((fontColumn >>> 8) &&& 0xFF)
    if bDoubleWidth then
      let fb := fb.set (offset + 1) (fb.getD offset 0)
      fb.set (offset + Width + 1) (fb.getD (offset + Width) 0)
    else fb) fb

/-- `DrawPartLevels` (ssd1306.cpp lines 229-287).  `partLevelPixels i` and
`peakLevelPixels i` stand for the u8 values `m_PartLevels[i] * barHeight` and
`m_PeakLevels[i] * barHeight` (levels are floats in `[0,1]`, so these lie in
`[0, barHeight]`).  For each of the 9 parts the per-page column pattern is
computed and stored into every column of the part's bar, bottom page first. -/
def DrawPartLevels (height : Nat) (partLevelPixels peakLevelPixels : Nat → Nat)
    (nFirstRow : Nat) (bDrawPeaks : Bool) (fb : List Nat) : List Nat :=
  let firstPageOffset := nFirstRow * Width
  let tp := totalPages height
  (List.range 9).foldl (fun fb i =>
    let pv := barPageValuesWithPeak tp (partLevelPixels i) (peakLevelPixels i) bDrawPeaks
    (List.range BarWidth).foldl (fun fb j =>
      (List.range tp).foldl (fun fb k =>
        let offset := firstPageOffset + BarOffset + ((tp - 1) * Width - k * Width)
          + i * (BarWidth + BarSpacing) + j
        fb.set (offset + 1) (pv.getD k 0)) fb) fb) fb

/-- The first loop of `Print` (ssd1306.cpp lines 291-295): draw characters
while the string is nonempty and `nCursorX < 20`; returns the framebuffer and
the final cursor column. -/
def printChars (font : Nat → Nat → Nat) (text : List Nat) (nCursorX nCursorY : Nat)
    (fb : List Nat) : List Nat × Nat :=
  match text with
  | [] => (fb, nCursorX)
  | c :: rest =>
    if nCursorX < 20 then
      printChars font rest (nCursorX + 1) nCursorY (DrawChar font fb c nCursorX nCursorY false false)
    else (fb, nCursorX)

/-- The `bClearLine` loop of `Print` (ssd1306.cpp lines 297-301): draw spaces
until `nCursorX` reaches 20. -/
def padLine (font : Nat → Nat → Nat) (nCursorY : Nat) (fb : List Nat) (nCursorX : Nat) :
    List Nat :=
  if nCursorX < 20 then
    padLine font nCursorY (DrawChar font fb 32 nCursorX nCursorY false false) (nCursorX + 1)
  else fb
termination_by 20 - nCursorX

/-- `Print` (ssd1306.cpp lines 289-305). -/
def Print (font : Nat → Nat → Nat) (height : Nat) (st : LCDState) (text : List Nat)
    (nCursorX nCursorY : Nat) (bClearLine bImmediate : Bool) : LCDState :=
  let p := printChars font text nCursorX nCursorY st.fb
  let fb := if bClearLine then padLine font nCursorY p.1 p.2 else p.1
  let st2 : LCDState := { st with fb := fb }
  if bImmediate then WriteFramebuffer height st2 else st2

/-- `Clear` (ssd1306.cpp lines 307-312): `memset(m_Framebuffer + 1, 0,
Width * m_nHeight / 8)`, modelled byte by byte, then an optional flush. -/
def Clear (height : Nat) (bImmediate : Bool) (st : LCDState) : LCDState :=
  let st2 : LCDState :=
    { st with fb := (List.range (Width * height / 8)).foldl (fun fb k => fb.set (k + 1) 0) st.fb }
  if bImmediate then WriteFramebuffer height st2 else st2

/-- The `initSequence` array of `Initialize` (ssd1306.cpp lines 113-158),
with the height- and rotation-derived parameters.  `inverted` is
`m_Rotation == TLCDRotation::Inverted`; `multiplexRatio` is the u8 cast of
`m_nHeight - 1`. -/
def initSequence (height : Nat) (inverted : Bool) : List Nat :=
  let pageAddrRange := if height = 32 then 0x03 else 0x07
  let segRemap := if inverted then 0xA0 else 0xA1
  let comScanDir := if inverted then 0xC0 else 0xC8
  let multiplexRatio := (height - 1) % 256
  let comPins := if height = 32 then 0x02 else 0x12
  [0xAE, 0x81, 0x7F, 0xA6,
   0x20, 0x0, 0x21, 0x00, 0x7F, 0x22, 0x00, pageAddrRange,
   segRemap, 0xA8, multiplexRatio, comScanDir,
   0xD3, 0x00, 0xDA, comPins, 0xD5, 0x80, 0xD9, 0x22, 0xDB, 0x20,
   0x8D, 0x14, 0xA4, 0xAF]

/-- `Initialize` (ssd1306.cpp lines 106-168): if the height is neither 32 nor
64, return `false` without touching the transport; otherwise write each
`initSequence` byte as a 2-byte frame `{0x80, byte}` and return `true`. -/
def Initialize (height : Nat) (inverted : Bool) (st : LCDState) : Bool × LCDState :=
  if ¬(height = 32 ∨ height = 64) then (false, st)
  else
    (true, { st with writes := st.writes ++ (initSequence height inverted).map (fun b => [0x80, b]) })

/-- The framebuffer after construction (`m_Framebuffer{0x40}`, ssd1306.cpp
line 101): first byte `0x40`, all others zero-initialized.  Modelled from the
spec: the array length `1 + Width * height / 8` is declared in `lcd/ssd1306.h`
(not under src/); spec §3 gives the framebuffer as one control byte followed
by `width·height/8` data bytes. -/
def initFramebuffer (height : Nat) : List Nat :=
  0x40 :: List.replicate (Width * height / 8) 0

/-- `Update` (ssd1306.cpp lines 314-325).  `text` stands for `m_TextBuffer`
and the level inputs for the values produced by `UpdatePartLevels` /
`UpdatePeakLevels` (base-class members declared outside src/); the framebuffer
effect is `DrawPartLevels(0)`, then `Print(text, 0, statusRow, true)`, then a
flush. -/
def Update (font : Nat → Nat → Nat) (height : Nat)
    (partLevelPixels peakLevelPixels : Nat → Nat) (bDrawPeaks : Bool)
    (text : List Nat) (st : LCDState) : LCDState :=
  let st1 : LCDState :=
    { st with fb := DrawPartLevels height partLevelPixels peakLevelPixels 0 bDrawPeaks st.fb }
  let statusRow := if height = 32 then 1 else 3
  let st2 := Print font height st1 text 0 statusRow true false
  WriteFramebuffer height st2

/-- Blitting a list of characters at consecutive cells starting at `nCursorX`
(the spec's reading of `Print`: characters drawn left-to-right, one cell
each). -/
def blitSeq (font : Nat → Nat → Nat) (nCursorY : Nat) :
    List Nat → List Nat → Nat → List Nat
  | fb, [], _ => fb
  | fb, c :: rest, nCursorX =>
    blitSeq font nCursorY (DrawChar font fb c nCursorX nCursorY false false) rest (nCursorX + 1)

/-! ### Helper lemmas -/

lemma getD_set_self (l : List Nat) (i v : Nat) (h : i < l.length) :
    (l.set i v).getD i 0 = v := by
  rw [List.getD_eq_getElem?_getD, List.getElem?_set_self h]
  rfl

lemma getD_set_ne (l : List Nat) (v : Nat) {i j : Nat} (h : i ≠ j) :
    (l.set i v).getD j 0 = l.getD j 0 := by
  rw [List.getD_eq_getElem?_getD, List.getElem?_set_ne h, ← List.getD_eq_getElem?_getD]

lemma set_getD_self (l : List Nat) {i : Nat} (h : i < l.length) :
    l.set i (l.getD i 0) = l := by
  apply List.ext_getElem?
  intro n
  rw [List.getElem?_set]
  by_cases hn : i = n
  · subst hn
    simp only [if_pos rfl, if_pos h]
    rw [List.getD_eq_getElem _ _ h, List.getElem?_eq_getElem h]
    simp
  · simp [hn]

lemma getD_map_range (f : Nat → Nat) {n j : Nat} (h : j < n) :
    ((List.range n).map f).getD j 0 = f j := by
  have hl : j < ((List.range n).map f).length := by simpa using h
  rw [List.getD_eq_getElem _ _ hl, List.getElem_map, List.getElem_range]

lemma foldl_getD_invariant {β : Type} (f : List Nat → β → List Nat) (l : List β)
    (fb : List Nat) (k : Nat)
    (h : ∀ acc b, b ∈ l → (f acc b).getD k 0 = acc.getD k 0) :
    (l.foldl f fb).getD k 0 = fb.getD k 0 := by
  induction l generalizing fb with
  | nil => rfl
  | cons a t ih =>
    rw [List.foldl_cons, ih _ (fun acc b hb => h acc b (List.mem_cons_of_mem _ hb)),
      h fb a (List.mem_cons_self _ _)]

lemma length_barPageValues (nTotalPages levelPixels : Nat) :
    (barPageValues nTotalPages levelPixels).length = nTotalPages := by
  unfold barPageValues
  dsimp only
  split <;> simp

/-- Every `SingleColumn` value fits in a byte: the fold only ORs in single
bits at positions `0..7`. -/
lemma singleColumn_lt (cd : List Nat) (c : Nat) : SingleColumn cd c < 256 := by
  unfold SingleColumn
  have step : ∀ l : List Nat, (∀ i ∈ l, i < 8) → ∀ acc, acc < 256 →
      l.foldl (fun column i => column ||| (cd.getD i 0 >>> (5 - c) &&& 1) <<< i) acc < 256 := by
    intro l
    induction l with
    | nil => intro _ acc hacc; simpa using hacc
    | cons a t ih =>
      intro hmem acc hacc
      rw [List.foldl_cons]
      refine ih (fun i hi => hmem i (List.mem_cons_of_mem _ hi)) _ ?_
      have ha : a < 8 := hmem a (List.mem_cons_self _ _)
      have hx : cd.getD a 0 >>> (5 - c) &&& 1 ≤ 1 := Nat.and_le_right
      have hsh : (cd.getD a 0 >>> (5 - c) &&& 1) <<< a < 256 := by
        rw [Nat.shiftLeft_eq]
        have h2 : (2 : Nat) ^ a ≤ 2 ^ 7 := Nat.pow_le_pow_right (by norm_num) (by omega)
        calc (cd.getD a 0 >>> (5 - c) &&& 1) * 2 ^ a ≤ 1 * 2 ^ 7 := Nat.mul_le_mul hx h2
          _ < 256 := by norm_num
      have h256 : (256 : Nat) = 2 ^ 8 := by norm_num
      rw [h256]
      exact Nat.or_lt_two_pow (by omega) (by omega)
  exact step _ (by decide) 0 (by norm_num)

set_option maxRecDepth 100000 in
/-- Bit `i` of the `DoubleColumn` duplication fold lands in bits `2i` and
`2i+1`, checked exhaustively over all byte values. -/
lemma dup_fold_testBit : ∀ s < 256, ∀ i < 8,
    (((List.range 8).foldl (fun column r =>
        column ||| ((s >>> r &&& 1) <<< (r * 2) ||| (s >>> r &&& 1) <<< (r * 2 + 1))) 0).testBit (2 * i)
      = s.testBit i ∧
     ((List.range 8).foldl (fun column r =>
        column ||| ((s >>> r &&& 1) <<< (r * 2) ||| (s >>> r &&& 1) <<< (r * 2 + 1))) 0).testBit (2 * i + 1)
      = s.testBit i) := by decide

/-! ### Claims -/

/-- C2: for every glyph data and every column `c ∈ [0,6)`, the double-height
entry `DoubleColumn cd c` equals the single-height entry `SingleColumn cd c`
with each bit `i` duplicated into bit positions `2i` and `2i+1`. -/
theorem doubleColumn_duplicates_singleColumn (cd : List Nat) (c i : Nat)
    (hc : c < 6) (hi : i < 8) :
    (DoubleColumn cd c).testBit (2 * i) = (SingleColumn cd c).testBit i ∧
    (DoubleColumn cd c).testBit (2 * i + 1) = (SingleColumn cd c).testBit i := by
  have hs := singleColumn_lt cd c
  unfold DoubleColumn
  generalize SingleColumn cd c = s at *
  exact dup_fold_testBit s hs i hi

/-- Witness for C2 at the glyph rows `[0, 62, 65, 73, 81, 62, 0, 0]`,
column 0, bit 1. -/
theorem doubleColumn_duplicates_singleColumn_witness :
    (0 : Nat) < 6 ∧ (1 : Nat) < 8 ∧
    ((DoubleColumn [0, 62, 65, 73, 81, 62, 0, 0] 0).testBit (2 * 1)
        = (SingleColumn [0, 62, 65, 73, 81, 62, 0, 0] 0).testBit 1 ∧
      (DoubleColumn [0, 62, 65, 73, 81, 62, 0, 0] 0).testBit (2 * 1 + 1)
        = (SingleColumn [0, 62, 65, 73, 81, 62, 0, 0] 0).testBit 1) :=
  ⟨by decide, by decide,
    doubleColumn_duplicates_singleColumn [0, 62, 65, 73, 81, 62, 0, 0] 0 1 (by decide) (by decide)⟩

/-- C1: for every level-pixel count derived from a level in `[0,1]`
(`levelPixels ≤ barHeight`), the `pageValues` array holds `0xFF` at pages
`0..fullPages-1`, `0` at pages `fullPages..totalPages-1`, and, when
`remainder ≠ 0`, the partial mask `0xFF << (8 - remainder)` (as a u8) at page
`fullPages`, where `fullPages = levelPixels / 8` and
`remainder = levelPixels % 8`. -/
theorem barPageValues_spec (height levelPixels j : Nat)
    (hh : height = 32 ∨ height = 64) (hl : levelPixels ≤ barHeight height)
    (hj : j < totalPages height) :
    (barPageValues (totalPages height) levelPixels).getD j 0 =
      if j < levelPixels / 8 then 0xFF
      else if j = levelPixels / 8 ∧ levelPixels % 8 ≠ 0 then
        (0xFF <<< (8 - levelPixels % 8)) % 256
      else 0 := by
  have h8 : 8 * totalPages height = barHeight height := by
    rcases hh with h | h <;> subst h <;> decide
  have hmaplen : ((List.range (totalPages height)).map
      (fun j => if j < levelPixels / 8 then 0xFF else (0 : Nat))).length = totalPages height := by
    simp
  unfold barPageValues
  dsimp only
  by_cases hr : levelPixels % 8 ≠ 0
  · rw [if_pos hr]
    have hfp : levelPixels / 8 < totalPages height := by omega
    by_cases hje : j = levelPixels / 8
    · subst hje
      rw [getD_set_self _ _ _ (by rw [hmaplen]; exact hfp)]
      rw [if_neg (lt_irrefl _), if_pos ⟨rfl, hr⟩]
    · rw [getD_set_ne _ _ (fun h => hje h.symm), getD_map_range _ hj]
      by_cases hlt : j < levelPixels / 8
      · rw [if_pos hlt, if_pos hlt]
      · rw [if_neg hlt, if_neg hlt, if_neg (fun hc => hje hc.1)]
  · rw [if_neg hr, getD_map_range _ hj]
    by_cases hlt : j < levelPixels / 8
    · rw [if_pos hlt, if_pos hlt]
    · rw [if_neg hlt, if_neg hlt, if_neg (fun hc => hr hc.2)]

/-- Witness for C1 at `level = 0.5` on a 64-pixel display:
`levelPixels = 24`, `fullPages = 3`, `remainder = 0`; pages 0-2 hold `0xFF`
and pages 3-5 hold `0`. -/
theorem barPageValues_spec_witness :
    (barPageValues (totalPages 64) 24).getD 2 0 = 0xFF ∧
    (barPageValues (totalPages 64) 24).getD 3 0 = 0 ∧
    (barPageValues (totalPages 64) 24).getD 5 0 = 0 :=
  ⟨(barPageValues_spec 64 24 2 (Or.inr rfl) (by decide) (by decide)).trans (by decide),
   (barPageValues_spec 64 24 3 (Or.inr rfl) (by decide) (by decide)).trans (by decide),
   (barPageValues_spec 64 24 5 (Or.inr rfl) (by decide) (by decide)).trans (by decide)⟩

/-- C3: when peaks are drawn and `0 < peakPixels ≤ barHeight`, the peak branch
ORs exactly one bit into exactly one page of `pageValues`: bit `8 - remainder`
into page `peakPage` when `remainder ≠ 0`, else bit 0 into page
`peakPage - 1`; every other page keeps its `barPageValues` value. -/
theorem peak_marker_spec (height levelPixels peakPixels k : Nat)
    (hh : height = 32 ∨ height = 64) (hp : 0 < peakPixels)
    (hpk : peakPixels ≤ barHeight height) (hk : k < totalPages height) :
    (barPageValuesWithPeak (totalPages height) levelPixels peakPixels true).getD k 0 =
      if peakPixels % 8 ≠ 0 then
        if k = peakPixels / 8 then
          (barPageValues (totalPages height) levelPixels).getD k 0 ||| (1 <<< (8 - peakPixels % 8))
        else (barPageValues (totalPages height) levelPixels).getD k 0
      else
        if k = peakPixels / 8 - 1 then
          (barPageValues (totalPages height) levelPixels).getD k 0 ||| 1
        else (barPageValues (totalPages height) levelPixels).getD k 0 := by
  have h8 : 8 * totalPages height = barHeight height := by
    rcases hh with h | h <;> subst h <;> decide
  have hlen := length_barPageValues (totalPages height) levelPixels
  unfold barPageValuesWithPeak
  dsimp only
  rw [if_pos ⟨rfl, by omega⟩]
  by_cases hr : peakPixels % 8 ≠ 0
  · rw [if_pos hr, if_pos hr]
    have hpg : peakPixels / 8 < totalPages height := by omega
    by_cases hke : k = peakPixels / 8
    · subst hke
      rw [getD_set_self _ _ _ (by rw [hlen]; exact hpg), if_pos rfl]
    · rw [getD_set_ne _ _ (fun h => hke h.symm), if_neg hke]
  · rw [if_neg hr, if_neg hr]
    have hm1 : peakPixels / 8 - 1 < totalPages height := by omega
    by_cases hke : k = peakPixels / 8 - 1
    · subst hke
      rw [getD_set_self _ _ _ (by rw [hlen]; exact hm1), if_pos rfl]
    · rw [getD_set_ne _ _ (fun h => hke h.symm), if_neg hke]

/-- Witness for C3 at `peakPixels = 16` on a 64-pixel display
(`peakPage = 2`, `remainder = 0`): the marker lands at bit 0 of page
`peakPage - 1 = 1`, and page `peakPage = 2` is unchanged. -/
theorem peak_marker_spec_witness :
    (barPageValuesWithPeak (totalPages 64) 0 16 true).getD 1 0 = 1 ∧
    (barPageValuesWithPeak (totalPages 64) 0 16 true).getD 2 0 = 0 :=
  ⟨(peak_marker_spec 64 0 16 1 (Or.inr rfl) (by decide) (by decide) (by decide)).trans (by decide),
   (peak_marker_spec 64 0 16 2 (Or.inr rfl) (by decide) (by decide) (by decide)).trans (by decide)⟩

/-- C9: under the precondition that peak levels lie in `[0,1]`
(`peakPixels ≤ barHeight`) and the `peakLevelPixels ≠ 0` guard, the
`pageValues` index the peak branch stores into is in bounds; in the
`remainder = 0` branch `peakPixels ≥ 8`, so `peakPage ≥ 1` and the index
`peakPage - 1` never underflows. -/
theorem peak_branch_in_bounds (height levelPixels peakPixels : Nat)
    (hh : height = 32 ∨ height = 64) (hp : 0 < peakPixels)
    (hpk : peakPixels ≤ barHeight height) :
    (peakPixels % 8 = 0 → 8 ≤ peakPixels ∧ 1 ≤ peakPixels / 8) ∧
    peakIndex peakPixels < (barPageValues (totalPages height) levelPixels).length := by
  have h8 : 8 * totalPages height = barHeight height := by
    rcases hh with h | h <;> subst h <;> decide
  rw [length_barPageValues]
  unfold peakIndex
  refine ⟨fun h0 => by omega, ?_⟩
  split <;> omega

/-- Witness for C9 at `peakPixels = 16`, 64-pixel display. -/
theorem peak_branch_in_bounds_witness :
    ((64 : Nat) = 32 ∨ (64 : Nat) = 64) ∧ (0 : Nat) < 16 ∧ (16 : Nat) ≤ barHeight 64 ∧
    (((16 : Nat) % 8 = 0 → 8 ≤ 16 ∧ 1 ≤ 16 / 8) ∧
      peakIndex 16 < (barPageValues (totalPages 64) 5).length) :=
  ⟨Or.inr rfl, by decide, by decide,
    peak_branch_in_bounds 64 5 16 (Or.inr rfl) (by decide) (by decide)⟩

/-- Byte arithmetic behind set-then-clear: OR-ing a bit into a byte and then
AND-NOT-ing it out restores the byte exactly when the bit was clear,
checked exhaustively over all bytes and bit positions. -/
lemma byte_or_and_not (b t : Nat) (hb : b < 256) (ht : t < 8)
    (h : b.testBit t = false) :
    (b ||| (1 <<< t)) &&& (0xFF ^^^ (1 <<< t)) = b := by
  have key : ∀ b < 256, ∀ t < 8, b.testBit t = false →
      (b ||| (1 <<< t)) &&& (0xFF ^^^ (1 <<< t)) = b := by decide
  exact key b hb t ht h

/-- The byte offset addressed by `SetPixel`/`ClearPixel` is always inside the
1025-byte framebuffer. -/
lemma pixel_offset_lt (nX nY : Nat) :
    (((nY &&& 0x3F) &&& 0xF8) <<< 4) + (nX &&& 0x7F) + 1 < 1025 := by
  have hy : nY &&& 0x3F ≤ 63 := Nat.and_le_right
  have hy2 : (nY &&& 0x3F) &&& 0xF8 ≤ 56 := by
    have key : ∀ a ≤ 63, a &&& 0xF8 ≤ 56 := by decide
    exact key _ hy
  have hx : nX &&& 0x7F ≤ 127 := Nat.and_le_right
  have hsh : ((nY &&& 0x3F) &&& 0xF8) <<< 4 ≤ 896 := by
    rw [Nat.shiftLeft_eq]
    calc ((nY &&& 0x3F) &&& 0xF8) * 2 ^ 4 ≤ 56 * 2 ^ 4 := Nat.mul_le_mul_right _ hy2
      _ = 896 := by norm_num
  omega

/-- C4: `SetPixel` and `ClearPixel` mask `x` to 7 bits and `y` to 6 bits,
then act on exactly the framebuffer byte at `((y & ~7) << 4) + x + 1` —
OR-ing in, resp. AND-NOT-ing out, the single bit `y & 7` — and leave every
other byte unchanged. -/
theorem pixel_addressing (fb : List Nat) (nX nY k : Nat)
    (hlen : fb.length = 1025) (hk : k < fb.length) :
    (SetPixel fb nX nY).getD k 0 =
      (if k = (((nY &&& 0x3F) &&& 0xF8) <<< 4) + (nX &&& 0x7F) + 1 then
        fb.getD k 0 ||| (1 <<< ((nY &&& 0x3F) &&& 7))
      else fb.getD k 0) ∧
    (ClearPixel fb nX nY).getD k 0 =
      (if k = (((nY &&& 0x3F) &&& 0xF8) <<< 4) + (nX &&& 0x7F) + 1 then
        fb.getD k 0 &&& (0xFF ^^^ (1 <<< ((nY &&& 0x3F) &&& 7)))
      else fb.getD k 0) := by
  have hoff : (((nY &&& 0x3F) &&& 0xF8) <<< 4) + (nX &&& 0x7F) + 1 < fb.length := by
    rw [hlen]; exact pixel_offset_lt nX nY
  unfold SetPixel ClearPixel
  dsimp only
  constructor
  · by_cases hke : k = (((nY &&& 0x3F) &&& 0xF8) <<< 4) + (nX &&& 0x7F) + 1
    · subst hke
      rw [getD_set_self _ _ _ hoff, if_pos rfl]
    · rw [getD_set_ne _ _ (fun h => hke h.symm), if_neg hke]
  · by_cases hke : k = (((nY &&& 0x3F) &&& 0xF8) <<< 4) + (nX &&& 0x7F) + 1
    · subst hke
      rw [getD_set_self _ _ _ hoff, if_pos rfl]
    · rw [getD_set_ne _ _ (fun h => hke h.symm), if_neg hke]

/-- Witness for C4: pixel (3,2) lives at byte offset 4, bit 2. -/
theorem pixel_addressing_witness :
    (SetPixel (initFramebuffer 64) 3 2).getD 4 0 = 4 ∧
    (ClearPixel (initFramebuffer 64) 3 2).getD 4 0 = 0 := by
  have h := pixel_addressing (initFramebuffer 64) 3 2 4
    (by simp [initFramebuffer, Width]) (by simp [initFramebuffer, Width])
  exact ⟨h.1.trans (by decide), h.2.trans (by decide)⟩

/-- C5 counterexample: on a framebuffer whose addressed byte already has the
pixel bit set (byte value 1 at offset 1, pixel (0,0)), `SetPixel` then
`ClearPixel` does not restore the byte: it ends at 0, not 1. -/
theorem set_then_clear_not_restoring :
    ClearPixel (SetPixel [0x40, 1] 0 0) 0 0 ≠ [0x40, 1] := by decide

/-- C5 amended: `SetPixel(x,y)` followed by `ClearPixel(x,y)` restores the
addressed framebuffer byte exactly when the addressed pixel bit was clear
beforehand (the byte being a u8); for a byte whose pixel bit was already set,
the pair clears the bit instead (see the counterexample).  Wraparound is as
claimed: `x = 255` behaves identically to `x = 127`. -/
theorem set_then_clear_restores (fb : List Nat) (nX nY : Nat)
    (hb : fb.getD ((((nY &&& 0x3F) &&& 0xF8) <<< 4) + (nX &&& 0x7F) + 1) 0 < 256)
    (hbit : (fb.getD ((((nY &&& 0x3F) &&& 0xF8) <<< 4) + (nX &&& 0x7F) + 1) 0).testBit
      ((nY &&& 0x3F) &&& 7) = false) :
    ClearPixel (SetPixel fb nX nY) nX nY = fb ∧
    SetPixel fb 255 nY = SetPixel fb 127 nY ∧
    ClearPixel fb 255 nY = ClearPixel fb 127 nY := by
  refine ⟨?_, ?_, ?_⟩
  · unfold SetPixel ClearPixel
    dsimp only
    by_cases hlt : (((nY &&& 0x3F) &&& 0xF8) <<< 4) + (nX &&& 0x7F) + 1 < fb.length
    · rw [getD_set_self _ _ _ hlt, List.set_set,
        byte_or_and_not _ _ hb (by have := Nat.and_le_right (n := nY &&& 0x3F) (m := 7); omega) hbit,
        set_getD_self _ hlt]
    · rw [List.set_eq_of_length_le (le_of_not_lt hlt),
        List.set_eq_of_length_le (le_of_not_lt hlt)]
  · unfold SetPixel
    dsimp only
    rw [show (255 : Nat) &&& 127 = 127 by decide, show (127 : Nat) &&& 127 = 127 by decide]
  · unfold ClearPixel
    dsimp only
    rw [show (255 : Nat) &&& 127 = 127 by decide, show (127 : Nat) &&& 127 = 127 by decide]

/-- Witness for C5 (amended) at pixel (0,0) on a framebuffer whose addressed
byte is 0. -/
theorem set_then_clear_restores_witness :
    (([0x40, 0] : List Nat).getD ((((0 &&& 0x3F) &&& 0xF8) <<< 4) + (0 &&& 0x7F) + 1) 0 < 256) ∧
    ((([0x40, 0] : List Nat).getD ((((0 &&& 0x3F) &&& 0xF8) <<< 4) + (0 &&& 0x7F) + 1) 0).testBit
      ((0 &&& 0x3F) &&& 7) = false) ∧
    (ClearPixel (SetPixel [0x40, 0] 0 0) 0 0 = [0x40, 0] ∧
      SetPixel [0x40, 0] 255 0 = SetPixel [0x40, 0] 127 0 ∧
      ClearPixel [0x40, 0] 255 0 = ClearPixel [0x40, 0] 127 0) :=
  ⟨by decide, by decide, set_then_clear_restores [0x40, 0] 0 0 (by decide) (by decide)⟩

/-- The character loop of `Print` draws exactly the first `20 - nCursorX`
characters of the text at consecutive cells and stops at column
`min 20 (nCursorX + text.length)`. -/
lemma printChars_eq (font : Nat → Nat → Nat) (nCursorY : Nat) :
    ∀ (text : List Nat) (nCursorX : Nat) (fb : List Nat), nCursorX ≤ 20 →
      printChars font text nCursorX nCursorY fb =
        (blitSeq font nCursorY fb (text.take (20 - nCursorX)) nCursorX,
          min 20 (nCursorX + text.length)) := by
  intro text
  induction text with
  | nil =>
    intro cx fb hcx
    simp only [printChars, List.take_nil, blitSeq, List.length_nil, Nat.add_zero,
      Prod.mk.injEq]
    exact ⟨trivial, by omega⟩
  | cons c rest ih =>
    intro cx fb hcx
    by_cases h : cx < 20
    · rw [printChars, if_pos h, ih (cx + 1) _ (by omega)]
      have htake : (c :: rest).take (20 - cx) = c :: rest.take (20 - (cx + 1)) := by
        have h20 : 20 - cx = (20 - (cx + 1)) + 1 := by omega
        rw [h20, List.take_succ_cons]
      rw [htake, blitSeq]
      simp only [Prod.mk.injEq, List.length_cons]
      exact ⟨trivial, by omega⟩
    · rw [printChars, if_neg h]
      have h20 : 20 - cx = 0 := by omega
      rw [h20, List.take_zero, blitSeq]
      simp only [Prod.mk.injEq, List.length_cons]
      exact ⟨trivial, by omega⟩

/-- The clear-line loop of `Print` draws spaces in every remaining cell up to
column 20. -/
lemma padLine_eq (font : Nat → Nat → Nat) (nCursorY : Nat) :
    ∀ (n nCursorX : Nat) (fb : List Nat), 20 - nCursorX = n →
      padLine font nCursorY fb nCursorX =
        blitSeq font nCursorY fb (List.replicate n 32) nCursorX := by
  intro n
  induction n with
  | zero =>
    intro cx fb h
    rw [padLine, if_neg (by omega), List.replicate_zero, blitSeq]
  | succ m ih =>
    intro cx fb h
    rw [padLine, if_pos (by omega), ih (cx + 1) _ (by omega), List.replicate_succ, blitSeq]

lemma blitSeq_append (font : Nat → Nat → Nat) (nCursorY : Nat) :
    ∀ (a b fb : List Nat) (nCursorX : Nat),
      blitSeq font nCursorY fb (a ++ b) nCursorX =
        blitSeq font nCursorY (blitSeq font nCursorY fb a nCursorX) b (nCursorX + a.length) := by
  intro a
  induction a with
  | nil => intro b fb cx; simp [blitSeq]
  | cons c rest ih =>
    intro b fb cx
    rw [List.cons_append, blitSeq, blitSeq, ih]
    congr 1
    simp only [List.length_cons]
    omega

/-- C7: for `x < 20`, `Print` blits `text.take (20 - x)` left-to-right from
cell `(x, y)`, then — when `bClearLine` — pads every remaining cell up to
column 20 with the space glyph (0x20), and appends a transport write of the
framebuffer exactly when `bImmediate` is set. -/
theorem print_spec (font : Nat → Nat → Nat) (height : Nat) (st : LCDState)
    (text : List Nat) (x y : Nat) (bClearLine bImmediate : Bool) (hx : x < 20) :
    (Print font height st text x y bClearLine bImmediate).fb =
      blitSeq font y st.fb
        (text.take (20 - x) ++
          (if bClearLine then List.replicate (20 - min 20 (x + text.length)) 32 else [])) x ∧
    (Print font height st text x y bClearLine bImmediate).writes =
      st.writes ++
        (if bImmediate then
          [(Print font height st text x y bClearLine bImmediate).fb.take (height * 16 + 1)]
        else []) := by
  have hlen : x + (text.take (20 - x)).length = min 20 (x + text.length) := by
    rw [List.length_take]
    omega
  unfold Print
  rw [printChars_eq font y text x st.fb (le_of_lt hx)]
  dsimp only
  cases bClearLine with
  | false =>
    cases bImmediate with
    | false => exact ⟨by simp, by simp⟩
    | true => exact ⟨by simp [WriteFramebuffer], by simp [WriteFramebuffer]⟩
  | true =>
    have hfb : padLine font y (blitSeq font y st.fb (text.take (20 - x)) x)
        (min 20 (x + text.length)) =
        blitSeq font y st.fb
          (text.take (20 - x) ++ List.replicate (20 - min 20 (x + text.length)) 32) x := by
      rw [padLine_eq font y _ _ _ rfl, blitSeq_append, hlen]
    cases bImmediate with
    | false => exact ⟨by simpa using hfb, by simp⟩
    | true =>
      refine ⟨?_, ?_⟩
      · simpa [WriteFramebuffer] using hfb
      · simp [WriteFramebuffer]

/-- Witness for C7: `Print("HELLO", 0, 0, clearLine := true,
immediate := false)` blits the 5 glyphs then 15 space glyphs, and performs no
transport write. -/
theorem print_spec_witness :
    (Print (fun _ _ => 0) 64 ⟨[], []⟩ [72, 69, 76, 76, 79] 0 0 true false).fb =
      blitSeq (fun _ _ => 0) 0 []
        ([72, 69, 76, 76, 79] ++ List.replicate 15 32) 0 ∧
    (Print (fun _ _ => 0) 64 ⟨[], []⟩ [72, 69, 76, 76, 79] 0 0 true false).writes = [] := by
  have h := print_spec (fun _ _ => 0) 64 ⟨[], []⟩ [72, 69, 76, 76, 79] 0 0 true false
    (by decide)
  exact ⟨h.1.trans (by decide), h.2.trans (by decide)⟩

/-- Whether or not a flush happens, the framebuffer field is unchanged by the
optional `WriteFramebuffer`. -/
lemma ite_writeFramebuffer_fb (c : Prop) [Decidable c] (height : Nat) (st : LCDState) :
    (if c then WriteFramebuffer height st else st).fb = st.fb := by
  split <;> rfl

/-- A store at a nonzero index leaves framebuffer byte 0 unchanged. -/
lemma getD_zero_set (l : List Nat) (n v : Nat) (h : n ≠ 0) :
    (l.set n v).getD 0 0 = l.getD 0 0 :=
  getD_set_ne l v h

/-- Every store of `DrawChar` hits an offset of at least 5, so byte 0 is
untouched. -/
lemma drawChar_getD_zero (font : Nat → Nat → Nat) (fb : List Nat) (ch cx cy : Nat)
    (inv dw : Bool) :
    (DrawChar font fb ch cx cy inv dw).getD 0 0 = fb.getD 0 0 := by
  unfold DrawChar
  dsimp only
  apply foldl_getD_invariant
  intro acc i _
  dsimp only
  split
  · refine (getD_zero_set _ _ _ ?_).trans
      ((getD_zero_set _ _ _ ?_).trans
        ((getD_zero_set _ _ _ ?_).trans (getD_zero_set _ _ _ ?_))) <;>
      exact Nat.pos_iff_ne_zero.mp (by positivity)
  · refine (getD_zero_set _ _ _ ?_).trans (getD_zero_set _ _ _ ?_) <;>
      exact Nat.pos_iff_ne_zero.mp (by positivity)

lemma blitSeq_getD_zero (font : Nat → Nat → Nat) (nCursorY : Nat) :
    ∀ (chars fb : List Nat) (nCursorX : Nat),
      (blitSeq font nCursorY fb chars nCursorX).getD 0 0 = fb.getD 0 0 := by
  intro chars
  induction chars with
  | nil => intro fb cx; rfl
  | cons c rest ih => intro fb cx; rw [blitSeq, ih, drawChar_getD_zero]

lemma printChars_fst_getD_zero (font : Nat → Nat → Nat) (nCursorY : Nat) :
    ∀ (text : List Nat) (nCursorX : Nat) (fb : List Nat),
      ((printChars font text nCursorX nCursorY fb).1).getD 0 0 = fb.getD 0 0 := by
  intro text
  induction text with
  | nil => intro cx fb; rfl
  | cons c rest ih =>
    intro cx fb
    by_cases h : cx < 20
    · rw [printChars, if_pos h, ih, drawChar_getD_zero]
    · rw [printChars, if_neg h]

lemma padLine_getD_zero (font : Nat → Nat → Nat) (nCursorY : Nat) (fb : List Nat)
    (nCursorX : Nat) :
    (padLine font nCursorY fb nCursorX).getD 0 0 = fb.getD 0 0 := by
  rw [padLine_eq font nCursorY _ _ _ rfl, blitSeq_getD_zero]

lemma print_fb_getD_zero (font : Nat → Nat → Nat) (height : Nat) (st : LCDState)
    (text : List Nat) (nCursorX nCursorY : Nat) (bClearLine bImmediate : Bool) :
    (Print font height st text nCursorX nCursorY bClearLine bImmediate).fb.getD 0 0
      = st.fb.getD 0 0 := by
  unfold Print
  dsimp only
  rw [ite_writeFramebuffer_fb]
  dsimp only
  split
  · rw [padLine_getD_zero, printChars_fst_getD_zero]
  · rw [printChars_fst_getD_zero]

lemma drawPartLevels_getD_zero (height : Nat) (partLevelPixels peakLevelPixels : Nat → Nat)
    (nFirstRow : Nat) (bDrawPeaks : Bool) (fb : List Nat) :
    (DrawPartLevels height partLevelPixels peakLevelPixels nFirstRow bDrawPeaks fb).getD 0 0
      = fb.getD 0 0 := by
  unfold DrawPartLevels
  dsimp only
  apply foldl_getD_invariant
  intro acc i _
  dsimp only
  apply foldl_getD_invariant
  intro acc2 j _
  dsimp only
  apply foldl_getD_invariant
  intro acc3 kk _
  dsimp only
  exact getD_zero_set _ _ _ (by omega)

lemma clear_fb_getD_zero (height : Nat) (bImmediate : Bool) (st : LCDState) :
    (Clear height bImmediate st).fb.getD 0 0 = st.fb.getD 0 0 := by
  unfold Clear
  dsimp only
  rw [ite_writeFramebuffer_fb]
  dsimp only
  apply foldl_getD_invariant
  intro acc k _
  exact getD_zero_set _ _ _ (by omega)

/-- C10: framebuffer byte 0 is the control marker `0x40` from construction,
and every drawing operation — `SetPixel`, `ClearPixel`, `Clear`, `DrawChar`,
`DrawPartLevels`, and hence `Print` and `Update` — preserves it: every
computed framebuffer store offset is strictly positive. -/
theorem control_byte_preserved :
    (∀ height, (initFramebuffer height).getD 0 0 = 0x40) ∧
    (∀ fb nX nY, (SetPixel fb nX nY).getD 0 0 = fb.getD 0 0) ∧
    (∀ fb nX nY, (ClearPixel fb nX nY).getD 0 0 = fb.getD 0 0) ∧
    (∀ height bImmediate st, (Clear height bImmediate st).fb.getD 0 0 = st.fb.getD 0 0) ∧
    (∀ font fb ch cx cy inv dw, (DrawChar font fb ch cx cy inv dw).getD 0 0 = fb.getD 0 0) ∧
    (∀ height lv pk fr dp fb,
      (DrawPartLevels height lv pk fr dp fb).getD 0 0 = fb.getD 0 0) ∧
    (∀ font height st text cx cy cl imm,
      (Print font height st text cx cy cl imm).fb.getD 0 0 = st.fb.getD 0 0) ∧
    (∀ font height lv pk dp text st,
      (Update font height lv pk dp text st).fb.getD 0 0 = st.fb.getD 0 0) := by
  refine ⟨fun _ => rfl, ?_, ?_, clear_fb_getD_zero, drawChar_getD_zero,
    drawPartLevels_getD_zero, print_fb_getD_zero, ?_⟩
  · intro fb nX nY
    unfold SetPixel
    dsimp only
    exact getD_zero_set _ _ _ (by omega)
  · intro fb nX nY
    unfold ClearPixel
    dsimp only
    exact getD_zero_set _ _ _ (by omega)
  · intro font height lv pk dp text st
    unfold Update
    dsimp only
    simp only [WriteFramebuffer]
    rw [print_fb_getD_zero]
    dsimp only
    rw [drawPartLevels_getD_zero]

/-- C6 counterexample: on a 32-pixel display (`totalPages = 2`, display pages
0-3) with first row 0 and a full bar level (16 pixels), `DrawPartLevels`
writes `0xFF` into the byte at offset 3 — a byte of display page 0, the
topmost page — so the bar region occupies the top pages and the page rows
left unwritten do not lie above the bars. -/
theorem drawPartLevels_writes_top_page :
    (DrawPartLevels 32 (fun _ => 16) (fun _ => 0) 0 false (List.replicate 513 9)).getD 3 0
      = 0xFF ∧ (3 - 1) / Width = 0 := by
  constructor
  · decide
  · decide

/-- C6 amended: `DrawPartLevels` uses exactly `totalPages = height/8 - 2`
pages of bar height (`barHeight = height - 16`); with first row 0 it writes
only bytes of the top `totalPages` display pages (offsets
`1..totalPages*128`), so the two page rows it leaves unwritten are the
*bottom* two pages of the display — the rows reserved for other content such
as the status line sit below the bar region, and byte 0 is never written. -/
theorem drawPartLevels_confined (height : Nat) (hh : height = 32 ∨ height = 64)
    (partLevelPixels peakLevelPixels : Nat → Nat) (bDrawPeaks : Bool)
    (fb : List Nat) (k : Nat)
    (hk : k = 0 ∨ totalPages height * Width < k) :
    (DrawPartLevels height partLevelPixels peakLevelPixels 0 bDrawPeaks fb).getD k 0
      = fb.getD k 0 := by
  unfold DrawPartLevels
  dsimp only
  apply foldl_getD_invariant
  intro acc i hi
  dsimp only
  apply foldl_getD_invariant
  intro acc2 j hj
  dsimp only
  apply foldl_getD_invariant
  intro acc3 kk hkk
  dsimp only
  apply getD_set_ne
  have hi' : i < 9 := List.mem_range.mp hi
  have hj' : j < BarWidth := List.mem_range.mp hj
  have hkk' : kk < totalPages height := List.mem_range.mp hkk
  rcases hh with h | h <;> subst h <;>
    · simp only [totalPages, Width, BarOffset, BarWidth, BarSpacing] at *
      omega

/-- Witness for C6 (amended): on a 32-pixel display no byte of the bottom two
pages (e.g. offset 300, page 2) is touched. -/
theorem drawPartLevels_confined_witness :
    ((32 : Nat) = 32 ∨ (32 : Nat) = 64) ∧
    ((300 : Nat) = 0 ∨ totalPages 32 * Width < 300) ∧
    (DrawPartLevels 32 (fun _ => 16) (fun _ => 0) 0 false (List.replicate 513 9)).getD 300 0
      = (List.replicate 513 9).getD 300 0 :=
  ⟨Or.inl rfl, Or.inr (by decide),
    drawPartLevels_confined 32 (Or.inl rfl) (fun _ => 16) (fun _ => 0) false
      (List.replicate 513 9) 300 (Or.inr (by decide))⟩

/-- C8: `Initialize` with a height that is neither 32 nor 64 returns the
failure indicator and leaves the transport-write log (and all state)
unchanged. -/
theorem initialize_invalid_height (height : Nat) (inverted : Bool) (st : LCDState)
    (h32 : height ≠ 32) (h64 : height ≠ 64) :
    Initialize height inverted st = (false, st) := by
  unfold Initialize
  simp [h32, h64]

/-- Witness for C8 at height 48. -/
theorem initialize_invalid_height_witness :
    (48 : Nat) ≠ 32 ∧ (48 : Nat) ≠ 64 ∧
      Initialize 48 false ⟨[0x40], []⟩ = (false, ⟨[0x40], []⟩) :=
  ⟨by decide, by decide, initialize_invalid_height 48 false ⟨[0x40], []⟩ (by decide) (by decide)⟩

end SSD1306
